import Mathlib

/-!
Verification of the flip-clock firmware's stepper position-control core
(`src/flipclock/flipclock.ino`), shallowly embedded in Lean.

Conventions used throughout the embedding:

* The target (ATmega32U4 "Pro Micro") has 16-bit `unsigned int`; arithmetic
  performed in that type is taken modulo `UINT_MOD = 2^16` wherever an
  intermediate value could matter.  `STEPS_PER_REV = 4096` divides `2^16`,
  so the double reduction `% UINT_MOD % STEPS_PER_REV` agrees with the plain
  `% STEPS_PER_REV`.
* An endstop `digitalRead` result is a `Bool`: `true` means HIGH, which is
  "not pressed" (the endstop pins use pull-ups and the switch shorts the pin
  to ground — the source steps wheels "until the endstop pin reads high" to
  make sure they are "unpressed"); `false` means LOW, which is "pressed".
* The sequence of endstop samples a run will observe is an environment
  `reads : Nat → Bool`; every loop iteration of the source that performs a
  `digitalRead` consumes the next sample, in program order.
* `delayMicroseconds`, `pinMode` and coil-pin `digitalWrite`s have no
  observable effect on the modelled state (position / drive phase) and are
  dropped; `disable_stepper` likewise only touches pins.
* `e_stop()` (the fatal blinking halt) never returns; an operation that can
  reach it reports `ok = false` together with the half-steps performed up to
  the halt.
-/

/-- `#define STEPS_PER_REV 4096` — half-steps per full revolution. -/
abbrev STEPS_PER_REV : Nat := 4096

/-- `#define ENDSTOP_DEBOUNCE_READS 3` — consecutive endstop reads required. -/
abbrev ENDSTOP_DEBOUNCE_READS : Nat := 3

/-- Modulus of the target's 16-bit `unsigned int`. -/
abbrev UINT_MOD : Nat := 65536

/-- `const byte endstop_pins[] = {21,20,20};` -/
def endstop_pins (s : Nat) : Nat := if s = 0 then 21 else 20

/-- `const byte starting_digits[] = {0, 0, 9};` -/
def starting_digits (s : Nat) : Nat := if s = 2 then 9 else 0

/-- `const unsigned int starting_offset[] = {110, 80, 265};` -/
def starting_offset (s : Nat) : Nat :=
  if s = 0 then 110 else if s = 1 then 80 else 265

/-- The mutable per-stepper state: `stepper_pos[i]` (position in half-steps
relative to the homing point) and `drive_step[i]` (current half-step drive
phase, 0 to 7). -/
@[ext]
structure Wheel where
  pos : Nat
  phase : Nat
  deriving DecidableEq, Repr

/-- `half_step(stepper_num)`: energizes one of the four coil patterns selected
by the current drive phase (pin writes, not modelled) and then advances
`drive_step[stepper_num] = (drive_step[stepper_num] + 1) % 8`.  The stepper
position is not touched. -/
def half_step (w : Wheel) : Wheel :=
  { w with phase := (w.phase + 1) % 8 }

/-- `step_num(stepper_num, steps, wait)`: updates
`stepper_pos = (stepper_pos + steps) % STEPS_PER_REV` (the sum is formed in
16-bit `unsigned int`, hence the inner `% UINT_MOD`) and then performs `steps`
half-steps. -/
def step_num (w : Wheel) (steps : Nat) : Wheel :=
  half_step^[steps] { w with pos := (w.pos + steps) % UINT_MOD % STEPS_PER_REV }

/-- One debounced seeking loop of `step_to_home` (the source has two such
loops, one waiting for `ENDSTOP_DEBOUNCE_READS` consecutive LOW reads, one for
that many consecutive HIGH reads).  `want` is the level being debounced
(`false` = LOW = pressed, `true` = HIGH = released).

Each iteration checks the loop condition `endstop_repeats < N`, then samples
the endstop, updates the consecutive-read counter, performs one half-step and
increments the shared `total_steps`; if `total_steps` now exceeds
`2 * STEPS_PER_REV` the program halts (`e_stop`).  `fuel` is the remaining
budget `2 * STEPS_PER_REV - total_steps`, so running out of fuel is exactly
the source's halt condition.  `i` is the index of the next unconsumed endstop
sample, which also equals the total number of samples taken (and half-steps
performed) so far when the loop chain starts at index 0.

Returns `(true, i)` on loop exit with `i` the next sample index, or
`(false, i)` on halt, where `i` counts the sample consumed by the halting
iteration as well. -/
def seekAux (want : Bool) (reads : Nat → Bool) : Nat → Nat → Nat → Bool × Nat
  | 0, i, r =>
    if ENDSTOP_DEBOUNCE_READS ≤ r then (true, i) else (false, i + 1)
  | fuel + 1, i, r =>
    if ENDSTOP_DEBOUNCE_READS ≤ r then (true, i)
    else seekAux want reads fuel (i + 1) (if reads i = want then r + 1 else 0)

/-- `step_to_home(stepper_num, wait)`: steps until the endstop has been read
LOW (pressed) `ENDSTOP_DEBOUNCE_READS` times in a row, then HIGH (released)
that many times in a row, then sets `stepper_pos = 0`.  A single cumulative
`total_steps` counter spans both loops; when it exceeds `2 * STEPS_PER_REV`
the wheel is disabled and the program halts.

Returns `(ok, total half-steps performed, final wheel state)`. -/
def step_to_home (reads : Nat → Bool) (w : Wheel) : Bool × Nat × Wheel :=
  let r1 := seekAux false reads (2 * STEPS_PER_REV) 0 0
  if r1.1 then
    let r2 := seekAux true reads (2 * STEPS_PER_REV - r1.2) r1.2 0
    if r2.1 then (true, r2.2, { half_step^[r2.2] w with pos := 0 })
    else (false, r2.2, half_step^[r2.2] w)
  else (false, r1.2, half_step^[r1.2] w)

/-- Outcome of a positioning call: whether it returned (`ok = false` means the
fatal halt was reached while re-homing), the number of half-steps performed,
whether a re-homing took place, and the final wheel state. -/
structure MoveResult where
  ok : Bool
  steps : Nat
  rehomed : Bool
  wheel : Wheel
  deriving DecidableEq, Repr

/-- `step_to_position(stepper_num, target_pos, wait)`: no-op when
`target_pos == stepper_pos` (checked before any normalization); otherwise
`target_pos %= STEPS_PER_REV`, and if the normalized target is below the
current position the wheel re-homes and then steps forward by `target_pos`,
else it steps forward by `target_pos - stepper_pos`. -/
def step_to_position (reads : Nat → Bool) (w : Wheel) (target : Nat) :
    MoveResult :=
  if target = w.pos then ⟨true, 0, false, w⟩
  else
    let t := target % STEPS_PER_REV
    if t < w.pos then
      let h := step_to_home reads w
      if h.1 then ⟨true, h.2.1 + t, true, step_num h.2.2 t⟩
      else ⟨false, h.2.1, true, h.2.2⟩
    else ⟨true, t - w.pos, false, step_num w (t - w.pos)⟩

/-- `num_flaps` in `step_to_digit`: the ones display has 10 flaps, the others
have 12. -/
def num_flaps (s : Nat) : Nat := if s = 2 then 10 else 12

/-- `num_digits` in `step_to_digit`: 12 for hours, 6 for minute-tens, 10 for
minute-ones. -/
def num_digits (s : Nat) : Nat :=
  if s = 0 then 12 else if s = 1 then 6 else 10

/-- The target step position computed by `step_to_digit`:

`starting_offset[s] + (unsigned int)((num_digits + digit - starting_digits[s]) % num_digits) * STEPS_PER_REV / num_flaps`.

C's `*` and `/` associate left, so the wheel-index multiple of `STEPS_PER_REV`
is formed first and only then divided by `num_flaps`; both steps happen in
16-bit `unsigned int`, hence the `% UINT_MOD` reductions. -/
def digit_target (s digit : Nat) : Nat :=
  (starting_offset s +
      ((num_digits s + digit - starting_digits s) % num_digits s) *
        STEPS_PER_REV % UINT_MOD / num_flaps s) % UINT_MOD

/-- The digit-target formula in the words of the specification: the per-flap
step size `STEPS_PER_REV / flap_count` is evaluated as a unit under integer
arithmetic and then multiplied by the wheel index.  Stated for comparison with
`digit_target`, which is the source's computation. -/
def digit_target_spec (s digit : Nat) : Nat :=
  starting_offset s +
    ((num_digits s + digit - starting_digits s) % num_digits s) *
      (STEPS_PER_REV / num_flaps s)

/-- `step_to_digit(stepper_num, digit, wait)`: computes the target position
for the digit; for the minute-tens display (stepper 1), which carries two full
digit sets half a revolution apart, it steps to
`second_target = target_pos + STEPS_PER_REV/2` when the current position lies
strictly after `target_pos` and at-or-before `second_target`, and to
`target_pos` otherwise.  The other displays always step to `target_pos`.
(The trailing `disable_stepper` only de-energizes pins.) -/
def step_to_digit (reads : Nat → Bool) (s : Nat) (w : Wheel) (digit : Nat) :
    MoveResult :=
  let target := digit_target s digit
  if s = 1 then
    let second := (target + STEPS_PER_REV / 2) % UINT_MOD
    if target < w.pos ∧ w.pos ≤ second then step_to_position reads w second
    else step_to_position reads w target
  else step_to_position reads w target

/-- Forward (unidirectional) half-step distance from position `p` to position
`x` on a wheel, both taken in `[0, STEPS_PER_REV)`. -/
def fwd_dist (p x : Nat) : Nat := (x + STEPS_PER_REV - p) % STEPS_PER_REV

/-- The target position `step_to_digit` selects for the minute-tens display
(stepper 1): `second_target` when the current position lies strictly after
`target_pos` and at-or-before `second_target`, `target_pos` otherwise. -/
def tens_chosen (w : Wheel) (digit : Nat) : Nat :=
  let target := digit_target 1 digit
  let second := (target + STEPS_PER_REV / 2) % UINT_MOD
  if target < w.pos ∧ w.pos ≤ second then second else target

/-- Outcome of the boot-time shared-endstop clearing routine in `setup`. -/
structure ClearResult where
  ok : Bool
  total : Nat
  idx : Nat
  w1 : Wheel
  w2 : Wheel
  deriving DecidableEq, Repr

/-- The body of the clearing loop in `setup`: while the shared endstop line
reads LOW (pressed), nudge stepper 1 by 200 half-steps, re-sample, and if the
line is still LOW nudge stepper 2 by 200 half-steps; add 200 to `total_steps`
and halt (`e_stop`) when `total_steps` exceeds `STEPS_PER_REV`.

`fuel` bounds the remaining iterations; the routine is entered with `fuel =
21` and `total = 0`, which keeps the invariant `total = 200 * (21 - fuel)`,
and under that invariant the halt check fires strictly before `fuel` can
reach 0.  `idx` is the index of the next unconsumed sample of the shared
line. -/
def clear_aux (reads : Nat → Bool) :
    Nat → Nat → Nat → Wheel → Wheel → ClearResult
  | 0, i, total, w1, w2 => ⟨false, total, i, w1, w2⟩
  | fuel + 1, i, total, w1, w2 =>
    if reads i = true then ⟨true, total, i, w1, w2⟩
    else
      let w1' := step_num w1 200
      let w2' := if reads (i + 1) = true then w2 else step_num w2 200
      if STEPS_PER_REV < total + 200 then ⟨false, total + 200, i + 2, w1', w2'⟩
      else clear_aux reads fuel (i + 2) (total + 200) w1' w2'

/-- The shared-endstop clearing step of `setup`: only runs when steppers 1 and
2 share an endstop pin (they do: `endstop_pins[1] == endstop_pins[2] == 20`). -/
def clear_shared_endstop (reads : Nat → Bool) (w1 w2 : Wheel) : ClearResult :=
  if endstop_pins 1 = endstop_pins 2 then clear_aux reads 21 0 0 w1 w2
  else ⟨true, 0, 0, w1, w2⟩

/-- The homing state machine as the specification words it: each of the two
seeking states independently counts the half-steps it has taken, and each
transitions to the failure halt only when its own count exceeds
`2 * STEPS_PER_REV`.  (The source routine instead shares one cumulative
`total_steps` counter across both loops.)  Stated for comparison with
`step_to_home`. -/
def step_to_home_spec (reads : Nat → Bool) (w : Wheel) : Bool × Nat × Wheel :=
  let r1 := seekAux false reads (2 * STEPS_PER_REV) 0 0
  if r1.1 then
    let r2 := seekAux true reads (2 * STEPS_PER_REV) r1.2 0
    if r2.1 then (true, r2.2, { half_step^[r2.2] w with pos := 0 })
    else (false, r2.2, half_step^[r2.2] w)
  else (false, r1.2, half_step^[r1.2] w)

/-! ### Date-time model (RTClib collaborator)

The clock peripheral and its `DateTime` arithmetic live in the external
Adafruit RTClib library, not in this repository; the following definitions
model the parts `loop` uses, faithfully to RTClib's documented algorithms for
years 2000–2099: `date2days` (days since 2000-01-01, treating every year
divisible by 4 as a leap year), `dayOfTheWeek()` (`(date2days + 6) % 7`, with
0 = Sunday), and chronological comparison of two `DateTime`s, modelled through
the linearization `secondstime`.  Adding a `TimeSpan` of `k` days is modelled
by adding `k` to the day-of-month field; the source only ever adds the
Sunday-alignment offset `(7 - dayOfTheWeek) % 7 ≤ 6` to March 8 and
November 1, which never leaves the month, where the two notions agree. -/

structure DateTime where
  year : Nat
  month : Nat
  day : Nat
  hour : Nat
  minute : Nat
  second : Nat
  deriving DecidableEq, Repr

/-- Cumulative day count before a month (RTClib `daysInMonth` table
`{31,28,31,30,31,30,31,31,30,31,30,31}`, summed). -/
def daysBeforeMonth (m : Nat) : Nat :=
  if m = 1 then 0 else if m = 2 then 31 else if m = 3 then 59
  else if m = 4 then 90 else if m = 5 then 120 else if m = 6 then 151
  else if m = 7 then 181 else if m = 8 then 212 else if m = 9 then 243
  else if m = 10 then 273 else if m = 11 then 304 else 334

/-- RTClib `date2days`: days since 2000-01-01 (16-bit unsigned). -/
def date2days (y m d : Nat) : Nat :=
  let yOff := if 2000 ≤ y then y - 2000 else y
  (d + daysBeforeMonth m + (if 2 < m ∧ yOff % 4 = 0 then 1 else 0) +
      365 * yOff + (yOff + 3) / 4 - 1) % UINT_MOD

/-- RTClib `dayOfTheWeek()`: `(date2days + 6) % 7`, 0 = Sunday. -/
def dayOfTheWeek (y m d : Nat) : Nat := (date2days y m d + 6) % 7

/-- Chronological linearization of a `DateTime` (seconds since 2000-01-01);
RTClib compares `DateTime`s chronologically, which coincides with comparing
this value. -/
def secondstime (t : DateTime) : Nat :=
  date2days t.year t.month t.day * 86400 +
    t.hour * 3600 + t.minute * 60 + t.second

/-- The DST start instant computed in `loop`: March 8 of the given year at
02:00, advanced to the next Sunday via `(7 - dayOfTheWeek) % 7` days. -/
def dst_start (y : Nat) : DateTime :=
  ⟨y, 3, 8 + (7 - dayOfTheWeek y 3 8) % 7, 2, 0, 0⟩

/-- The DST end instant computed in `loop`: November 1 of the given year at
01:00 (standard time), advanced to the next Sunday. -/
def dst_end (y : Nat) : DateTime :=
  ⟨y, 11, 1 + (7 - dayOfTheWeek y 11 1) % 7, 1, 0, 0⟩

/-- The globals `year_old`, `dst_start`, `dst_end` kept by the sketch for the
per-year DST cutoff cache. -/
structure DstCache where
  year_old : Nat
  dstS : DateTime
  dstE : DateTime
  deriving DecidableEq, Repr

/-- The hour digit `loop` will display for a reading, as a pure function of
the reading: `hr = hour % 12`, incremented modulo 12 exactly when the reading
lies in `[dst_start, dst_end)` of its own year. -/
def loop_hour (now : DateTime) : Nat :=
  if secondstime (dst_start now.year) ≤ secondstime now ∧
      secondstime now < secondstime (dst_end now.year) then
    (now.hour % 12 + 1) % 12
  else now.hour % 12

/-- One pass of the digit computation in `loop`: recompute the DST cutoffs
when the reading's year differs from `year_old`, then produce the hour digit
(`hour % 12`, plus 1 modulo 12 when inside the cached DST window), the
minute-tens digit and the minute-ones digit.  Returns the updated cache and
`(hour digit, tens digit, ones digit)`. -/
def loop_step (st : DstCache) (now : DateTime) :
    DstCache × Nat × Nat × Nat :=
  let st' :=
    if now.year ≠ st.year_old then
      ⟨now.year, dst_start now.year, dst_end now.year⟩
    else st
  let hr0 := now.hour % 12
  let hr :=
    if secondstime st'.dstS ≤ secondstime now ∧
        secondstime now < secondstime st'.dstE then (hr0 + 1) % 12
    else hr0
  (st', hr, now.minute / 10, now.minute % 10)

/-! ### Concrete endstop traces used by counterexamples and witnesses -/

/-- Endstop trace reading pressed (LOW) three times, then released (HIGH)
forever: the shortest trace on which homing succeeds. -/
def tr_pr (i : Nat) : Bool := decide (3 ≤ i)

/-- Endstop trace reading released (HIGH) for the first 8187 samples, pressed
(LOW) for samples 8187–8189, and released (HIGH) from sample 8190 on.  The
pressed-seeking loop consumes 8190 samples, leaving only 2 half-steps of the
shared budget for the released-seeking loop, which then halts even though the
line reads released throughout its own run. -/
def tr_late (i : Nat) : Bool := decide (i < 8187 ∨ 8190 ≤ i)

/-! ### Lemmas about the seeking loops -/

/-- When the debounce counter has already reached the threshold, the seeking
loop exits immediately with the current sample index. -/
theorem seekAux_exit (want : Bool) (rd : Nat → Bool) (fuel i r : Nat)
    (h : ENDSTOP_DEBOUNCE_READS ≤ r) :
    seekAux want rd fuel i r = (true, i) := by
  cases fuel <;> simp [seekAux, h]

/-- One iteration of the seeking loop below the debounce threshold. -/
theorem seekAux_succ (want : Bool) (rd : Nat → Bool) (fuel i r : Nat)
    (h : r < ENDSTOP_DEBOUNCE_READS) :
    seekAux want rd (fuel + 1) i r =
      seekAux want rd fuel (i + 1) (if rd i = want then r + 1 else 0) := by
  simp only [seekAux, if_neg (Nat.not_le.mpr h)]

/-- With the budget exhausted and the threshold not reached, the iteration
samples once more, steps, and halts. -/
theorem seekAux_zero (want : Bool) (rd : Nat → Bool) (i r : Nat)
    (h : r < ENDSTOP_DEBOUNCE_READS) :
    seekAux want rd 0 i r = (false, i + 1) := by
  simp only [seekAux, if_neg (Nat.not_le.mpr h)]

/-- Three consecutive samples at the sought level finish the loop. -/
theorem seekAux_run (want : Bool) (rd : Nat → Bool) (fuel i : Nat)
    (h0 : rd i = want) (h1 : rd (i + 1) = want) (h2 : rd (i + 2) = want) :
    seekAux want rd (fuel + 3) i 0 = (true, i + 3) := by
  show seekAux want rd (fuel + 2 + 1) i 0 = (true, i + 3)
  rw [seekAux_succ _ _ _ _ _ (by norm_num), h0, if_pos rfl]
  show seekAux want rd (fuel + 1 + 1) (i + 1) 1 = (true, i + 3)
  rw [seekAux_succ _ _ _ _ _ (by norm_num), h1, if_pos rfl]
  show seekAux want rd (fuel + 1) (i + 2) 2 = (true, i + 3)
  rw [seekAux_succ _ _ _ _ _ (by norm_num), h2, if_pos rfl]
  exact seekAux_exit _ _ _ _ _ (by norm_num)

/-- Skipping a block of samples that all read the opposite level: the counter
is back at zero afterwards (or untouched when the block is empty). -/
theorem seekAux_skip (want : Bool) (rd : Nat → Bool) :
    ∀ (a fuel i r : Nat), a ≤ fuel → r < ENDSTOP_DEBOUNCE_READS →
      (∀ j, i ≤ j → j < i + a → rd j ≠ want) →
      seekAux want rd fuel i r =
        seekAux want rd (fuel - a) (i + a) (if a = 0 then r else 0)
  | 0, fuel, i, r, _, _, _ => by simp
  | a + 1, fuel, i, r, hle, hr, hw => by
    obtain ⟨f, rfl⟩ : ∃ f, fuel = f + 1 := ⟨fuel - 1, by omega⟩
    rw [seekAux_succ _ _ _ _ _ hr, if_neg (hw i le_rfl (by omega))]
    rw [seekAux_skip want rd a f (i + 1) 0 (by omega) (by norm_num)
      (fun j hj1 hj2 => hw j (by omega) (by omega))]
    have e1 : i + 1 + a = i + (a + 1) := by omega
    have e2 : f - a = f + 1 - (a + 1) := by omega
    rw [e1, e2]
    simp

/-- If every remaining sample reads the opposite level, the loop exhausts the
budget and halts, having consumed `fuel + 1` further samples. -/
theorem seekAux_allwrong (want : Bool) (rd : Nat → Bool) :
    ∀ (fuel i r : Nat), r < ENDSTOP_DEBOUNCE_READS →
      (∀ j, i ≤ j → j ≤ i + fuel → rd j ≠ want) →
      seekAux want rd fuel i r = (false, i + fuel + 1)
  | 0, i, r, hr, _ => seekAux_zero _ _ _ _ hr
  | fuel + 1, i, r, hr, hw => by
    rw [seekAux_succ _ _ _ _ _ hr, if_neg (hw i le_rfl (by omega))]
    rw [seekAux_allwrong want rd fuel (i + 1) 0 (by norm_num)
      (fun j hj hj2 => hw j (by omega) (by omega))]
    have : i + 1 + fuel + 1 = i + (fuel + 1) + 1 := by omega
    rw [this]

/-- A halting run always consumes exactly its whole budget plus the final
sample taken by the halting iteration. -/
theorem seekAux_fail_idx (want : Bool) (rd : Nat → Bool) :
    ∀ (fuel i r k : Nat), seekAux want rd fuel i r = (false, k) →
      k = i + fuel + 1
  | 0, i, r, k, h => by
    by_cases hr : ENDSTOP_DEBOUNCE_READS ≤ r
    · rw [seekAux_exit _ _ _ _ _ hr] at h
      simp [Prod.ext_iff] at h
    · rw [seekAux_zero _ _ _ _ (by omega)] at h
      simp [Prod.ext_iff] at h
      omega
  | fuel + 1, i, r, k, h => by
    by_cases hr : ENDSTOP_DEBOUNCE_READS ≤ r
    · rw [seekAux_exit _ _ _ _ _ hr] at h
      simp [Prod.ext_iff] at h
    · rw [seekAux_succ _ _ _ _ _ (by omega)] at h
      have := seekAux_fail_idx want rd fuel (i + 1) _ k h
      omega

/-- A successful run consumes at most the budget, needs at least enough
samples to satisfy the threshold, and its final
`ENDSTOP_DEBOUNCE_READS` consumed samples (as far as they fall inside this
run) all read the sought level. -/
theorem seekAux_ok_props (want : Bool) (rd : Nat → Bool) :
    ∀ (fuel i r k : Nat), r ≤ ENDSTOP_DEBOUNCE_READS →
      seekAux want rd fuel i r = (true, k) →
      i ≤ k ∧ k ≤ i + fuel ∧ ENDSTOP_DEBOUNCE_READS ≤ r + (k - i) ∧
        (∀ j, k - ENDSTOP_DEBOUNCE_READS ≤ j → i ≤ j → j < k → rd j = want)
  | 0, i, r, k, hr3, h => by
    by_cases hr : ENDSTOP_DEBOUNCE_READS ≤ r
    · rw [seekAux_exit _ _ _ _ _ hr] at h
      simp only [Prod.mk.injEq, true_and] at h
      subst h
      exact ⟨le_rfl, by omega, by omega, fun j _ hj2 hj3 => by omega⟩
    · rw [seekAux_zero _ _ _ _ (by omega)] at h
      simp [Prod.ext_iff] at h
  | fuel + 1, i, r, k, hr3, h => by
    by_cases hr : ENDSTOP_DEBOUNCE_READS ≤ r
    · rw [seekAux_exit _ _ _ _ _ hr] at h
      simp only [Prod.mk.injEq, true_and] at h
      subst h
      exact ⟨le_rfl, by omega, by omega, fun j _ hj2 hj3 => by omega⟩
    · rw [seekAux_succ _ _ _ _ _ (by omega)] at h
      by_cases hv : rd i = want
      · rw [if_pos hv] at h
        obtain ⟨h1, h2, h3, h4⟩ :=
          seekAux_ok_props want rd fuel (i + 1) (r + 1) k (by omega) h
        refine ⟨by omega, by omega, by omega, ?_⟩
        intro j hj1 hj2 hj3
        rcases Nat.eq_or_lt_of_le hj2 with rfl | hlt
        · exact hv
        · exact h4 j hj1 (by omega) hj3
      · rw [if_neg hv] at h
        obtain ⟨h1, h2, h3, h4⟩ :=
          seekAux_ok_props want rd fuel (i + 1) 0 k (by omega) h
        refine ⟨by omega, by omega, by omega, ?_⟩
        intro j hj1 hj2 hj3
        exact h4 j hj1 (by omega) hj3

/-! ### Lemmas about half-stepping and the position tracker -/

/-- Iterated half-stepping never touches the position. -/
theorem iterate_half_step_pos (w : Wheel) :
    ∀ n, (half_step^[n] w).pos = w.pos
  | 0 => rfl
  | n + 1 => by
    rw [Function.iterate_succ_apply']
    exact iterate_half_step_pos w n

/-- Iterated half-stepping advances the drive phase modulo 8. -/
theorem iterate_half_step_phase (w : Wheel) (hw : w.phase < 8) :
    ∀ n, (half_step^[n] w).phase = (w.phase + n) % 8
  | 0 => by simpa using (Nat.mod_eq_of_lt hw).symm
  | n + 1 => by
    rw [Function.iterate_succ_apply']
    show ((half_step^[n] w).phase + 1) % 8 = (w.phase + (n + 1)) % 8
    rw [iterate_half_step_phase w hw n]
    omega

/-- Closed form of iterated half-stepping from an in-range phase. -/
theorem iterate_half_step (w : Wheel) (hw : w.phase < 8) (n : Nat) :
    half_step^[n] w = ⟨w.pos, (w.phase + n) % 8⟩ := by
  ext
  · exact iterate_half_step_pos w n
  · exact iterate_half_step_phase w hw n

/-- The position update of `step_num`: the 16-bit sum reduced modulo
`STEPS_PER_REV` coincides with the plain modular sum because
`STEPS_PER_REV` divides `UINT_MOD`. -/
theorem step_num_pos (w : Wheel) (n : Nat) :
    (step_num w n).pos = (w.pos + n) % STEPS_PER_REV := by
  unfold step_num
  rw [iterate_half_step_pos]
  exact Nat.mod_mod_of_dvd _ (by norm_num)

/-- The phase update of `step_num`. -/
theorem step_num_phase (w : Wheel) (hw : w.phase < 8) (n : Nat) :
    (step_num w n).phase = (w.phase + n) % 8 := by
  unfold step_num
  exact iterate_half_step_phase
    ⟨(w.pos + n) % UINT_MOD % STEPS_PER_REV, w.phase⟩ hw n

/-- Closed form of `step_num` from an in-range phase. -/
theorem step_num_eq (w : Wheel) (hw : w.phase < 8) (n : Nat) :
    step_num w n = ⟨(w.pos + n) % STEPS_PER_REV, (w.phase + n) % 8⟩ := by
  ext
  · exact step_num_pos w n
  · exact step_num_phase w hw n


/-! ### Lemmas about the homing routine -/

/-- Unfolding `step_to_home` when the pressed-seeking loop halts. -/
theorem step_to_home_fail1 (rd : Nat → Bool) (w : Wheel) (k1 : Nat)
    (hs1 : seekAux false rd (2 * STEPS_PER_REV) 0 0 = (false, k1)) :
    step_to_home rd w = (false, k1, half_step^[k1] w) := by
  unfold step_to_home
  rw [hs1]
  rfl

/-- Unfolding `step_to_home` when the released-seeking loop halts. -/
theorem step_to_home_fail2 (rd : Nat → Bool) (w : Wheel) (k1 k2 : Nat)
    (hs1 : seekAux false rd (2 * STEPS_PER_REV) 0 0 = (true, k1))
    (hs2 : seekAux true rd (2 * STEPS_PER_REV - k1) k1 0 = (false, k2)) :
    step_to_home rd w = (false, k2, half_step^[k2] w) := by
  unfold step_to_home
  rw [hs1]
  simp only
  rw [hs2]
  rfl

/-- Unfolding `step_to_home` when both seeking loops succeed. -/
theorem step_to_home_success (rd : Nat → Bool) (w : Wheel) (k1 k2 : Nat)
    (hs1 : seekAux false rd (2 * STEPS_PER_REV) 0 0 = (true, k1))
    (hs2 : seekAux true rd (2 * STEPS_PER_REV - k1) k1 0 = (true, k2)) :
    step_to_home rd w = (true, k2, { half_step^[k2] w with pos := 0 }) := by
  unfold step_to_home
  rw [hs1]
  simp only
  rw [hs2]
  rfl

/-- Complete case analysis of `step_to_home`: either both seeking loops
succeed (and the returned wheel is reset to position 0), or the routine halts
having performed exactly `2 * STEPS_PER_REV + 1` half-steps in total. -/
theorem step_to_home_cases (rd : Nat → Bool) (w : Wheel) :
    (∃ k1 k, seekAux false rd (2 * STEPS_PER_REV) 0 0 = (true, k1) ∧
        seekAux true rd (2 * STEPS_PER_REV - k1) k1 0 = (true, k) ∧
        step_to_home rd w = (true, k, { half_step^[k] w with pos := 0 })) ∨
      (step_to_home rd w =
        (false, 2 * STEPS_PER_REV + 1, half_step^[2 * STEPS_PER_REV + 1] w)) := by
  rcases hs1 : seekAux false rd (2 * STEPS_PER_REV) 0 0 with ⟨b1, k1⟩
  cases b1
  · right
    have hk1 : k1 = 2 * STEPS_PER_REV + 1 := by
      have := seekAux_fail_idx false rd _ _ _ _ hs1
      omega
    subst hk1
    exact step_to_home_fail1 rd w _ hs1
  · rcases hs2 : seekAux true rd (2 * STEPS_PER_REV - k1) k1 0 with ⟨b2, k2⟩
    cases b2
    · right
      have hk1le : k1 ≤ 2 * STEPS_PER_REV := by
        have := seekAux_ok_props false rd _ _ _ _ (by norm_num) hs1
        omega
      have hk2 : k2 = 2 * STEPS_PER_REV + 1 := by
        have := seekAux_fail_idx true rd _ _ _ _ hs2
        omega
      subst hk2
      exact step_to_home_fail2 rd w _ _ hs1 hs2
    · exact Or.inl ⟨k1, k2, rfl, hs2, step_to_home_success rd w _ _ hs1 hs2⟩

/-- `step_num` with zero steps is the identity on wheels whose position is in
range. -/
theorem step_num_zero (w : Wheel) (h : w.pos < STEPS_PER_REV) :
    step_num w 0 = w := by
  unfold step_num
  show ({ w with pos := (w.pos + 0) % UINT_MOD % STEPS_PER_REV } : Wheel) = w
  ext
  · show (w.pos + 0) % UINT_MOD % STEPS_PER_REV = w.pos
    rw [Nat.mod_mod_of_dvd _ (by norm_num), Nat.add_zero, Nat.mod_eq_of_lt h]
  · rfl

/-! ### Case lemmas for the position planner -/

/-- `step_to_position` when the raw target equals the current position. -/
theorem step_to_position_noop (rd : Nat → Bool) (w : Wheel) (target : Nat)
    (h1 : target = w.pos) :
    step_to_position rd w target = ⟨true, 0, false, w⟩ := by
  simp only [step_to_position]
  rw [if_pos h1]

/-- `step_to_position` when the normalized target is at or ahead of the
current position: forward stepping, no re-home. -/
theorem step_to_position_forward (rd : Nat → Bool) (w : Wheel) (target : Nat)
    (h1 : target ≠ w.pos) (h2 : ¬ target % STEPS_PER_REV < w.pos) :
    step_to_position rd w target =
      ⟨true, target % STEPS_PER_REV - w.pos, false,
        step_num w (target % STEPS_PER_REV - w.pos)⟩ := by
  simp only [step_to_position]
  rw [if_neg h1, if_neg h2]

/-- `step_to_position` when the normalized target is behind the current
position and re-homing succeeds. -/
theorem step_to_position_rehome (rd : Nat → Bool) (w : Wheel) (target : Nat)
    (h1 : target ≠ w.pos) (h2 : target % STEPS_PER_REV < w.pos)
    (k : Nat) (w' : Wheel) (hh : step_to_home rd w = (true, k, w')) :
    step_to_position rd w target =
      ⟨true, k + target % STEPS_PER_REV, true,
        step_num w' (target % STEPS_PER_REV)⟩ := by
  simp only [step_to_position]
  rw [if_neg h1, if_pos h2, hh]
  rfl

/-- `step_to_position` when the normalized target is behind the current
position and re-homing halts the program. -/
theorem step_to_position_rehome_fail (rd : Nat → Bool) (w : Wheel)
    (target : Nat) (h1 : target ≠ w.pos) (h2 : target % STEPS_PER_REV < w.pos)
    (k : Nat) (w' : Wheel) (hh : step_to_home rd w = (false, k, w')) :
    step_to_position rd w target = ⟨false, k, true, w'⟩ := by
  simp only [step_to_position]
  rw [if_neg h1, if_pos h2, hh]
  rfl

/-! ### Evaluations on the concrete traces -/

/-- On `tr_pr` the pressed-seeking loop finishes after 3 samples. -/
theorem seek1_tr_pr : seekAux false tr_pr (2 * STEPS_PER_REV) 0 0 = (true, 3) := by
  show seekAux false tr_pr (8189 + 3) 0 0 = (true, 3)
  exact seekAux_run false tr_pr 8189 0 (by decide) (by decide) (by decide)

/-- On `tr_pr` the released-seeking loop finishes after 3 further samples. -/
theorem seek2_tr_pr :
    seekAux true tr_pr (2 * STEPS_PER_REV - 3) 3 0 = (true, 6) := by
  show seekAux true tr_pr (8186 + 3) 3 0 = (true, 6)
  exact seekAux_run true tr_pr 8186 3 (by decide) (by decide) (by decide)

/-- Homing on the trace `tr_pr` succeeds after 6 half-steps. -/
theorem home_tr_pr (w : Wheel) :
    step_to_home tr_pr w = (true, 6, { half_step^[6] w with pos := 0 }) :=
  step_to_home_success tr_pr w 3 6 seek1_tr_pr seek2_tr_pr

/-- Homing on `tr_pr` from the concrete wheel `⟨100, 0⟩`. -/
theorem home_tr_pr_100 : step_to_home tr_pr ⟨100, 0⟩ = (true, 6, ⟨0, 6⟩) := by
  rw [home_tr_pr]
  decide

/-- `step_to_position` on `tr_pr` from position 100 to target 50: re-homes
(6 half-steps on this trace) and then steps forward 50, 56 half-steps in
total. -/
theorem stp_tr_pr_100_50 :
    step_to_position tr_pr ⟨100, 0⟩ 50 = ⟨true, 56, true, ⟨50, 0⟩⟩ := by
  rw [step_to_position_rehome tr_pr ⟨100, 0⟩ 50 (by decide) (by decide) 6 ⟨0, 6⟩
    home_tr_pr_100]
  decide

/-- On `tr_late` the pressed-seeking loop consumes 8190 samples: 8187 released
reads followed by the debounce run of 3 pressed reads. -/
theorem seek1_tr_late :
    seekAux false tr_late (2 * STEPS_PER_REV) 0 0 = (true, 8190) := by
  have h := seekAux_skip false tr_late 8187 (2 * STEPS_PER_REV) 0 0
    (by norm_num) (by norm_num)
    (fun j _ hj => by
      simp only [tr_late, ne_eq, decide_eq_false_iff_not, not_or, not_le]
      omega)
  rw [h]
  norm_num
  show seekAux false tr_late (2 + 3) 8187 0 = (true, 8190)
  exact seekAux_run false tr_late 2 8187 (by decide) (by decide) (by decide)

/-- On `tr_late` the released-seeking loop inherits only 2 half-steps of the
shared budget and halts after its third sample even though every sample it
takes reads released. -/
theorem seek2_tr_late :
    seekAux true tr_late (2 * STEPS_PER_REV - 8190) 8190 0 = (false, 8193) := by
  decide

/-- The source homing routine halts on `tr_late`. -/
theorem home_tr_late (w : Wheel) :
    step_to_home tr_late w = (false, 8193, half_step^[8193] w) :=
  step_to_home_fail2 tr_late w 8190 8193 seek1_tr_late seek2_tr_late

/-- With an independent budget of `2 * STEPS_PER_REV`, the released-seeking
loop would succeed on `tr_late` after only 3 samples of its own. -/
theorem seek2_tr_late_indep :
    seekAux true tr_late (2 * STEPS_PER_REV) 8190 0 = (true, 8193) := by
  show seekAux true tr_late (8189 + 3) 8190 0 = (true, 8193)
  exact seekAux_run true tr_late 8189 8190 (by decide) (by decide) (by decide)

/-- The specification's independent-counter homing machine succeeds on
`tr_late`. -/
theorem home_spec_tr_late (w : Wheel) :
    step_to_home_spec tr_late w =
      (true, 8193, { half_step^[8193] w with pos := 0 }) := by
  unfold step_to_home_spec
  rw [seek1_tr_late]
  simp only
  rw [seek2_tr_late_indep]
  rfl

/-! ### Claim C1 -/

/-- C1 counterexample: on the endstop trace `tr_pr`, moving from position 100
to target 50 re-homes in 6 half-steps and then steps forward 50, for 56
half-steps in total and final position 50 — but the claim's step count,
"forward distance to the normalized target plus exactly one full extra lap of
STEPS_PER_REV because the target is behind the position", would be
50 + 4096 - 100 = 4046 (or 4046 + 4096 reading the forward distance as
already wrapped), neither of which is 56.  The number of half-steps spent
re-homing depends on the endstop readings and is not a fixed full lap. -/
theorem c1_counterexample :
    step_to_position tr_pr ⟨100, 0⟩ 50 = ⟨true, 56, true, ⟨50, 0⟩⟩ ∧
    (step_to_position tr_pr ⟨100, 0⟩ 50).steps ≠
      50 + STEPS_PER_REV - 100 ∧
    (step_to_position tr_pr ⟨100, 0⟩ 50).steps ≠
      fwd_dist 100 50 + STEPS_PER_REV := by
  refine ⟨stp_tr_pr_100_50, ?_, ?_⟩ <;> rw [stp_tr_pr_100_50] <;> decide

/-- C1 (amended): when `step_to_position` returns without a fatal halt, the
wheel's position equals `target mod STEPS_PER_REV`; if the normalized target
is at or ahead of the pre-call position the call performs exactly
`target mod STEPS_PER_REV - position` half-steps with no re-homing, and if it
is behind the pre-call position the call re-homes first — taking however many
half-steps the endstop readings dictate — and then performs exactly
`target mod STEPS_PER_REV` further half-steps. -/
theorem c1_step_to_position (rd : Nat → Bool) (w : Wheel) (target : Nat)
    (hw : w.pos < STEPS_PER_REV)
    (hok : (step_to_position rd w target).ok = true) :
    (step_to_position rd w target).wheel.pos = target % STEPS_PER_REV ∧
    (w.pos ≤ target % STEPS_PER_REV →
      (step_to_position rd w target).steps = target % STEPS_PER_REV - w.pos ∧
      (step_to_position rd w target).rehomed = false) ∧
    (target % STEPS_PER_REV < w.pos →
      (step_to_position rd w target).rehomed = true ∧
      (step_to_position rd w target).steps =
        (step_to_home rd w).2.1 + target % STEPS_PER_REV) := by
  have ht : target % STEPS_PER_REV < STEPS_PER_REV :=
    Nat.mod_lt _ (by norm_num)
  by_cases h1 : target = w.pos
  · rw [step_to_position_noop rd w target h1]
    subst h1
    have hw4 : w.pos < 4096 := hw
    refine ⟨?_, fun h => ⟨?_, rfl⟩, fun h => absurd h ?_⟩
    · show w.pos = w.pos % 4096
      omega
    · show (0 : Nat) = w.pos % 4096 - w.pos
      omega
    · show ¬ w.pos % 4096 < w.pos
      omega
  · by_cases h2 : target % STEPS_PER_REV < w.pos
    · rcases step_to_home_cases rd w with ⟨k1, k, hs1, hs2, hh⟩ | hh
      · rw [step_to_position_rehome rd w target h1 h2 _ _ hh]
        refine ⟨?_, fun h => absurd h (by omega), fun _ => ⟨rfl, ?_⟩⟩
        · rw [step_num_pos]
          show (0 + target % STEPS_PER_REV) % STEPS_PER_REV = _
          rw [Nat.zero_add, Nat.mod_eq_of_lt ht]
        · rw [hh]
      · rw [step_to_position_rehome_fail rd w target h1 h2 _ _ hh] at hok
        simp at hok
    · rw [step_to_position_forward rd w target h1 h2]
      refine ⟨?_, fun _ => ⟨rfl, rfl⟩, fun h => absurd h h2⟩
      rw [step_num_pos]
      have : w.pos + (target % STEPS_PER_REV - w.pos) = target % STEPS_PER_REV := by
        omega
      rw [this, Nat.mod_eq_of_lt ht]

/-- C1 witness: the amended statement applied on the trace `tr_pr` from
position 100 with target 50. -/
theorem c1_step_to_position_witness :
    (100 : Nat) < STEPS_PER_REV ∧
    (step_to_position tr_pr ⟨100, 0⟩ 50).ok = true ∧
    (step_to_position tr_pr ⟨100, 0⟩ 50).wheel.pos = 50 % STEPS_PER_REV ∧
    (step_to_position tr_pr ⟨100, 0⟩ 50).rehomed = true ∧
    (step_to_position tr_pr ⟨100, 0⟩ 50).steps =
      (step_to_home tr_pr ⟨100, 0⟩).2.1 + 50 % STEPS_PER_REV := by
  have hok : (step_to_position tr_pr ⟨100, 0⟩ 50).ok = true := by
    rw [stp_tr_pr_100_50]
  have h := c1_step_to_position tr_pr ⟨100, 0⟩ 50 (by norm_num) hok
  exact ⟨by norm_num, hok, h.1, (h.2.2 (by decide)).1, (h.2.2 (by decide)).2⟩

/-! ### Claim C2 -/

/-- C2 counterexample: the claim requires every completed homing run to end
with `ENDSTOP_DEBOUNCE_READS` consecutive "pressed" samples (the claimed
`SEEK_RELEASED → SEEK_PRESSED` order).  On the trace `tr_pr` (pressed,
pressed, pressed, released, released, released) homing completes after
consuming 6 samples, but the final three samples read released — the source
seeks pressed first and released second, the reverse of the claimed order. -/
theorem c2_counterexample :
    ¬ ∀ (rd : Nat → Bool) (w : Wheel) (k : Nat) (w' : Wheel),
        step_to_home rd w = (true, k, w') →
        (∀ j, k - ENDSTOP_DEBOUNCE_READS ≤ j → j < k → rd j = false) := by
  intro hcl
  have he : step_to_home tr_pr ⟨0, 0⟩ = (true, 6, ⟨0, 6⟩) := by
    rw [home_tr_pr]
    decide
  have h5 := hcl tr_pr ⟨0, 0⟩ 6 ⟨0, 6⟩ he 5 (by norm_num) (by norm_num)
  exact absurd h5 (by decide)

/-- C2 (amended): whenever `step_to_home` completes, it has first observed
`ENDSTOP_DEBOUNCE_READS` consecutive "pressed" endstop samples and then
`ENDSTOP_DEBOUNCE_READS` consecutive "not pressed" samples, in that order
(the source's pressed-then-released order, opposite to the claimed
released-then-pressed) and never directly — each debounce threshold consumes
at least `ENDSTOP_DEBOUNCE_READS` samples of its own — and on completion the
wheel's position is set to 0. -/
theorem c2_homing_order (rd : Nat → Bool) (w : Wheel) (k : Nat) (w' : Wheel)
    (h : step_to_home rd w = (true, k, w')) :
    w'.pos = 0 ∧ 2 * ENDSTOP_DEBOUNCE_READS ≤ k ∧
    (∀ j, k - ENDSTOP_DEBOUNCE_READS ≤ j → j < k → rd j = true) ∧
    (∃ k1, ENDSTOP_DEBOUNCE_READS ≤ k1 ∧ k1 + ENDSTOP_DEBOUNCE_READS ≤ k ∧
      ∀ j, k1 - ENDSTOP_DEBOUNCE_READS ≤ j → j < k1 → rd j = false) := by
  rcases step_to_home_cases rd w with ⟨k1, k2, hs1, hs2, hh⟩ | hh
  · have hinj := hh.symm.trans h
    simp only [Prod.mk.injEq, true_and] at hinj
    obtain ⟨hk, hw'⟩ := hinj
    subst hk
    obtain ⟨a1, a2, a3, a4⟩ := seekAux_ok_props false rd _ 0 0 k1 (by norm_num) hs1
    obtain ⟨b1, b2, b3, b4⟩ := seekAux_ok_props true rd _ k1 0 k2 (by norm_num) hs2
    refine ⟨?_, by omega, ?_, k1, by omega, by omega, ?_⟩
    · rw [← hw']
    · intro j hj1 hj2
      exact b4 j hj1 (by omega) hj2
    · intro j hj1 hj2
      exact a4 j hj1 (by omega) hj2
  · have hb : (true : Bool) = false := congrArg (fun p => p.1) (h.symm.trans hh)
    exact absurd hb (by decide)

/-- C2 witness: the amended statement applied to the shortest successful
homing trace `tr_pr`. -/
theorem c2_homing_order_witness :
    step_to_home tr_pr ⟨0, 0⟩ = (true, 6, ⟨0, 6⟩) ∧
    ((⟨0, 6⟩ : Wheel).pos = 0 ∧ 2 * ENDSTOP_DEBOUNCE_READS ≤ 6 ∧
      (∀ j, 6 - ENDSTOP_DEBOUNCE_READS ≤ j → j < 6 → tr_pr j = true) ∧
      (∃ k1, ENDSTOP_DEBOUNCE_READS ≤ k1 ∧ k1 + ENDSTOP_DEBOUNCE_READS ≤ 6 ∧
        ∀ j, k1 - ENDSTOP_DEBOUNCE_READS ≤ j → j < k1 → tr_pr j = false)) := by
  have he : step_to_home tr_pr ⟨0, 0⟩ = (true, 6, ⟨0, 6⟩) := by
    rw [home_tr_pr]
    decide
  exact ⟨he, c2_homing_order tr_pr ⟨0, 0⟩ 6 ⟨0, 6⟩ he⟩

/-! ### Claim C3 -/

/-- C3 counterexample: for the hours wheel (`flap_count = 12`,
`digit_count = 12`, `starting_digit = 0`, `starting_offset = 110`), digit 5
yields target `110 + (5 * 4096) / 12 = 1816` in the source, not the claimed
`110 + 5 * (4096 / 12) = 1815`: C's left-associated `* STEPS_PER_REV /
num_flaps` multiplies first and divides second, so the per-flap step size is
not evaluated as a unit. -/
theorem c3_counterexample :
    digit_target 0 5 = 1816 ∧ digit_target_spec 0 5 = 1815 ∧
      digit_target 0 5 ≠ digit_target_spec 0 5 := by
  refine ⟨by decide, by decide, by decide⟩

/-- C3 (amended): for every wheel and in-range digit the digit mapper computes
`starting_offset + ((digit_count + digit - starting_digit) mod digit_count) *
STEPS_PER_REV / flap_count`, with the multiplication by `STEPS_PER_REV`
performed before the division by `flap_count` (left-associated integer
arithmetic, no 16-bit overflow); in particular for the hours wheel digit 0
yields 110 and digit 5 yields `110 + (5 * 4096) / 12 = 1816`. -/
theorem c3_digit_target (s digit : Nat) (hs : s < 3)
    (hd : digit < num_digits s) :
    digit_target s digit =
      starting_offset s +
        ((num_digits s + digit - starting_digits s) % num_digits s) *
          STEPS_PER_REV / num_flaps s ∧
    digit_target 0 0 = 110 ∧ digit_target 0 5 = 1816 := by
  refine ⟨?_, by decide, by decide⟩
  interval_cases s
  · simp only [num_digits] at hd
    norm_num at hd
    interval_cases digit <;> decide
  · simp only [num_digits] at hd
    norm_num at hd
    interval_cases digit <;> decide
  · simp only [num_digits] at hd
    norm_num at hd
    interval_cases digit <;> decide

/-- C3 witness: the amended statement applied to the hours wheel at digit 5. -/
theorem c3_digit_target_witness :
    (0 : Nat) < 3 ∧ (5 : Nat) < num_digits 0 ∧
    digit_target 0 5 =
      starting_offset 0 +
        ((num_digits 0 + 5 - starting_digits 0) % num_digits 0) *
          STEPS_PER_REV / num_flaps 0 :=
  ⟨by norm_num, by decide, (c3_digit_target 0 5 (by norm_num) (by decide)).1⟩

/-! ### Claim C4 -/

/-- C4 counterexample: on the trace `tr_late` the pressed-seeking state
finishes after 8190 of the 8192 shared budget steps, and the released-seeking
state then halts the program after only 3 steps of its own (cumulative count
8193) even though the endstop behaves perfectly during its run — while the
specification's machine with an independent `2 * STEPS_PER_REV` budget per
state completes homing on the same trace.  The two seeking states do not count
independently; they share one cumulative counter. -/
theorem c4_counterexample :
    (step_to_home tr_late ⟨0, 0⟩).1 = false ∧
    seekAux false tr_late (2 * STEPS_PER_REV) 0 0 = (true, 8190) ∧
    seekAux true tr_late (2 * STEPS_PER_REV) 8190 0 = (true, 8193) ∧
    (step_to_home_spec tr_late ⟨0, 0⟩).1 = true := by
  refine ⟨?_, seek1_tr_late, seek2_tr_late_indep, ?_⟩
  · rw [home_tr_late]
  · rw [home_spec_tr_late]

/-- C4 (amended): `step_to_home` maintains a single cumulative half-step
counter across both seeking states and transitions to the fatal halt when that
cumulative count exceeds `2 * STEPS_PER_REV`; every failing run fails at
exactly cumulative step count `2 * STEPS_PER_REV + 1` — never after fewer
steps and never after more — and in particular if the endstop never reports
pressed the halt is reached at exactly `2 * STEPS_PER_REV + 1` half-steps. -/
theorem c4_homing_failure (rd : Nat → Bool) (w : Wheel) :
    ((step_to_home rd w).1 = false →
      (step_to_home rd w).2.1 = 2 * STEPS_PER_REV + 1) ∧
    ((∀ j, j ≤ 2 * STEPS_PER_REV → rd j = true) →
      (step_to_home rd w).1 = false ∧
      (step_to_home rd w).2.1 = 2 * STEPS_PER_REV + 1) := by
  constructor
  · intro hfail
    rcases step_to_home_cases rd w with ⟨k1, k, hs1, hs2, hh⟩ | hh
    · rw [hh] at hfail
      exact absurd (show (true : Bool) = false from hfail) (by decide)
    · rw [hh]
  · intro hrd
    have h1 : seekAux false rd (2 * STEPS_PER_REV) 0 0 =
        (false, 0 + 2 * STEPS_PER_REV + 1) :=
      seekAux_allwrong false rd (2 * STEPS_PER_REV) 0 0 (by norm_num)
        (fun j _ hj => by simp [hrd j (by omega)])
    have h2 := step_to_home_fail1 rd w _ h1
    rw [h2]
    exact ⟨rfl, by norm_num⟩

/-- C4 witness: the amended statement applied to the constantly-released
endstop trace, on which homing fails at exactly `2 * STEPS_PER_REV + 1`
half-steps. -/
theorem c4_homing_failure_witness :
    (∀ j, j ≤ 2 * STEPS_PER_REV → (fun _ => true) j = true) ∧
    (step_to_home (fun _ => true) ⟨0, 0⟩).1 = false ∧
    (step_to_home (fun _ => true) ⟨0, 0⟩).2.1 = 2 * STEPS_PER_REV + 1 := by
  have h := (c4_homing_failure (fun _ => true) ⟨0, 0⟩).2 (fun j _ => rfl)
  exact ⟨fun j _ => rfl, h.1, h.2⟩

/-! ### Claim C7 -/

/-- C7: calling `step_to_position` twice in succession with the same target —
under any endstop trace for the second call — makes the second call a no-op:
it performs zero half-steps, does not re-home, returns without halting, and
leaves the wheel's position and phase unchanged. -/
theorem c7_step_to_position_idempotent (rd rd2 : Nat → Bool) (w : Wheel)
    (target : Nat) (hok : (step_to_position rd w target).ok = true) :
    step_to_position rd2 (step_to_position rd w target).wheel target =
      ⟨true, 0, false, (step_to_position rd w target).wheel⟩ := by
  have ht : target % STEPS_PER_REV < STEPS_PER_REV :=
    Nat.mod_lt _ (by norm_num)
  by_cases h1 : target = w.pos
  · rw [step_to_position_noop rd w target h1]
    exact step_to_position_noop rd2 w target h1
  · have second :
        ∀ w1 : Wheel, w1.pos = target % STEPS_PER_REV →
          step_to_position rd2 w1 target = ⟨true, 0, false, w1⟩ := by
      intro w1 hw1
      by_cases he : target = w1.pos
      · exact step_to_position_noop rd2 w1 target he
      · have hnl : ¬ target % STEPS_PER_REV < w1.pos := by omega
        rw [step_to_position_forward rd2 w1 target he hnl]
        have hz : target % STEPS_PER_REV - w1.pos = 0 := by omega
        rw [hz, step_num_zero w1 (by omega)]
    by_cases h2 : target % STEPS_PER_REV < w.pos
    · rcases step_to_home_cases rd w with ⟨k1, k, hs1, hs2, hh⟩ | hh
      · rw [step_to_position_rehome rd w target h1 h2 _ _ hh]
        refine second _ ?_
        show (step_num { half_step^[k] w with pos := 0 }
          (target % STEPS_PER_REV)).pos = target % STEPS_PER_REV
        rw [step_num_pos]
        show (0 + target % STEPS_PER_REV) % STEPS_PER_REV = _
        rw [Nat.zero_add, Nat.mod_eq_of_lt ht]
      · rw [step_to_position_rehome_fail rd w target h1 h2 _ _ hh] at hok
        exact absurd (show (false : Bool) = true from hok) (by decide)
    · rw [step_to_position_forward rd w target h1 h2]
      refine second _ ?_
      show (step_num w (target % STEPS_PER_REV - w.pos)).pos =
        target % STEPS_PER_REV
      rw [step_num_pos]
      have he : w.pos + (target % STEPS_PER_REV - w.pos) =
          target % STEPS_PER_REV := by omega
      rw [he, Nat.mod_eq_of_lt ht]

/-- C7 witness: on the trace `tr_pr`, moving from position 100 to target 50
succeeds, and the repeated call with target 50 is a no-op. -/
theorem c7_step_to_position_idempotent_witness :
    (step_to_position tr_pr ⟨100, 0⟩ 50).ok = true ∧
    step_to_position tr_pr (step_to_position tr_pr ⟨100, 0⟩ 50).wheel 50 =
      ⟨true, 0, false, (step_to_position tr_pr ⟨100, 0⟩ 50).wheel⟩ := by
  have hok : (step_to_position tr_pr ⟨100, 0⟩ 50).ok = true := by
    rw [stp_tr_pr_100_50]
  exact ⟨hok, c7_step_to_position_idempotent tr_pr tr_pr ⟨100, 0⟩ 50 hok⟩

/-! ### Claim C9 -/

/-- The wheel delivered by `step_to_position` keeps the position/phase
invariant. -/
theorem step_to_position_inv (rd : Nat → Bool) (w : Wheel) (target : Nat)
    (hpos : w.pos < STEPS_PER_REV) (hph : w.phase < 8) :
    (step_to_position rd w target).wheel.pos < STEPS_PER_REV ∧
    (step_to_position rd w target).wheel.phase < 8 := by
  by_cases h1 : target = w.pos
  · rw [step_to_position_noop rd w target h1]
    exact ⟨hpos, hph⟩
  · by_cases h2 : target % STEPS_PER_REV < w.pos
    · rcases step_to_home_cases rd w with ⟨k1, k, hs1, hs2, hh⟩ | hh
      · rw [step_to_position_rehome rd w target h1 h2 _ _ hh]
        have hph' : ({ half_step^[k] w with pos := 0 } : Wheel).phase < 8 := by
          show (half_step^[k] w).phase < 8
          rw [iterate_half_step_phase w hph]
          exact Nat.mod_lt _ (by norm_num)
        constructor
        · show (step_num _ _).pos < STEPS_PER_REV
          rw [step_num_pos]
          exact Nat.mod_lt _ (by norm_num)
        · show (step_num _ _).phase < 8
          rw [step_num_phase _ hph']
          exact Nat.mod_lt _ (by norm_num)
      · rw [step_to_position_rehome_fail rd w target h1 h2 _ _ hh]
        constructor
        · show (half_step^[2 * STEPS_PER_REV + 1] w).pos < STEPS_PER_REV
          rw [iterate_half_step_pos]
          exact hpos
        · show (half_step^[2 * STEPS_PER_REV + 1] w).phase < 8
          rw [iterate_half_step_phase w hph]
          exact Nat.mod_lt _ (by norm_num)
    · rw [step_to_position_forward rd w target h1 h2]
      constructor
      · show (step_num _ _).pos < STEPS_PER_REV
        rw [step_num_pos]
        exact Nat.mod_lt _ (by norm_num)
      · show (step_num _ _).phase < 8
        rw [step_num_phase _ hph]
        exact Nat.mod_lt _ (by norm_num)

/-- `step_to_digit` always delegates to `step_to_position` at one of its two
computed targets. -/
theorem step_to_digit_eq (rd : Nat → Bool) (s : Nat) (w : Wheel)
    (digit : Nat) :
    ∃ tgt, step_to_digit rd s w digit = step_to_position rd w tgt := by
  simp only [step_to_digit]
  split_ifs <;> exact ⟨_, rfl⟩

/-- C9: every operation preserves the invariant that the wheel's position lies
in `[0, STEPS_PER_REV)` and its half-step phase in `[0, 8)`; `half_step`
leaves the position untouched, `step_num` changes it only by its modular
update, and `step_to_home` changes it only by the reset to 0 when homing
completes (on a halt it is left as it was). -/
theorem c9_invariants (w : Wheel) (n target digit s : Nat) (rd : Nat → Bool)
    (hpos : w.pos < STEPS_PER_REV) (hph : w.phase < 8) :
    (half_step w).pos = w.pos ∧
    (half_step w).phase = (w.phase + 1) % 8 ∧
    (half_step w).pos < STEPS_PER_REV ∧ (half_step w).phase < 8 ∧
    (step_num w n).pos = (w.pos + n) % STEPS_PER_REV ∧
    (step_num w n).phase = (w.phase + n) % 8 ∧
    (step_num w n).pos < STEPS_PER_REV ∧ (step_num w n).phase < 8 ∧
    ((step_to_home rd w).1 = true → (step_to_home rd w).2.2.pos = 0) ∧
    ((step_to_home rd w).1 = false → (step_to_home rd w).2.2.pos = w.pos) ∧
    (step_to_home rd w).2.2.pos < STEPS_PER_REV ∧
    (step_to_home rd w).2.2.phase < 8 ∧
    (step_to_position rd w target).wheel.pos < STEPS_PER_REV ∧
    (step_to_position rd w target).wheel.phase < 8 ∧
    (step_to_digit rd s w digit).wheel.pos < STEPS_PER_REV ∧
    (step_to_digit rd s w digit).wheel.phase < 8 := by
  obtain ⟨tgt, hdig⟩ := step_to_digit_eq rd s w digit
  have hstp := step_to_position_inv rd w target hpos hph
  have hstd := step_to_position_inv rd w tgt hpos hph
  have hhome : ((step_to_home rd w).1 = true →
        (step_to_home rd w).2.2.pos = 0) ∧
      ((step_to_home rd w).1 = false →
        (step_to_home rd w).2.2.pos = w.pos) ∧
      (step_to_home rd w).2.2.pos < STEPS_PER_REV ∧
      (step_to_home rd w).2.2.phase < 8 := by
    rcases step_to_home_cases rd w with ⟨k1, k, hs1, hs2, hh⟩ | hh
    · rw [hh]
      refine ⟨fun _ => rfl, fun hfalse => ?_, by norm_num, ?_⟩
      · exact absurd (show (true : Bool) = false from hfalse) (by decide)
      · show (half_step^[k] w).phase < 8
        rw [iterate_half_step_phase w hph]
        exact Nat.mod_lt _ (by norm_num)
    · rw [hh]
      refine ⟨fun htrue => ?_, fun _ => ?_, ?_, ?_⟩
      · exact absurd (show (false : Bool) = true from htrue) (by decide)
      · show (half_step^[2 * STEPS_PER_REV + 1] w).pos = w.pos
        rw [iterate_half_step_pos]
      · show (half_step^[2 * STEPS_PER_REV + 1] w).pos < STEPS_PER_REV
        rw [iterate_half_step_pos]
        exact hpos
      · show (half_step^[2 * STEPS_PER_REV + 1] w).phase < 8
        rw [iterate_half_step_phase w hph]
        exact Nat.mod_lt _ (by norm_num)
  refine ⟨rfl, rfl, hpos, Nat.mod_lt _ (by norm_num),
    step_num_pos w n, step_num_phase w hph n, ?_, ?_,
    hhome.1, hhome.2.1, hhome.2.2.1, hhome.2.2.2,
    hstp.1, hstp.2, ?_, ?_⟩
  · rw [step_num_pos]
    exact Nat.mod_lt _ (by norm_num)
  · rw [step_num_phase w hph]
    exact Nat.mod_lt _ (by norm_num)
  · rw [hdig]
    exact hstd.1
  · rw [hdig]
    exact hstd.2

/-- C9 witness: the invariants applied to a freshly homed wheel. -/
theorem c9_invariants_witness :
    ((⟨0, 0⟩ : Wheel).pos < STEPS_PER_REV ∧ (⟨0, 0⟩ : Wheel).phase < 8) ∧
    (step_num ⟨0, 0⟩ 5).pos = (0 + 5) % STEPS_PER_REV ∧
    (step_to_position tr_pr ⟨0, 0⟩ 7).wheel.pos < STEPS_PER_REV ∧
    (step_to_digit tr_pr 1 ⟨0, 0⟩ 3).wheel.phase < 8 := by
  obtain ⟨h1, h2, h3, h4, h5, h6, h7, h8, h9, h10, h11, h12, h13, h14, h15,
    h16⟩ := c9_invariants ⟨0, 0⟩ 5 7 3 1 tr_pr (by norm_num) (by norm_num)
  exact ⟨⟨by norm_num, by norm_num⟩, h5, h13, h16⟩

/-! ### Claim C10 -/

/-- C10: for every clock reading with hour below 24 and minute below 60, the
three digits computed by the steady-state loop satisfy `step_to_digit`'s
digit-range precondition: the hour digit (after the DST adjustment) is below
`num_digits 0 = 12`, the minute-tens digit below `num_digits 1 = 6` and the
minute-ones digit below `num_digits 2 = 10`, so the out-of-range digit case is
unreachable from the steady-state loop. -/
theorem c10_digits_in_range (st : DstCache) (now : DateTime)
    (_hhour : now.hour < 24) (hmin : now.minute < 60) :
    (loop_step st now).2.1 < num_digits 0 ∧
    (loop_step st now).2.2.1 < num_digits 1 ∧
    (loop_step st now).2.2.2 < num_digits 2 := by
  simp only [loop_step, num_digits]
  norm_num
  split_ifs <;> refine ⟨by omega, by omega, by omega⟩

/-- C10 witness: the digit bounds at a concrete cache and reading. -/
theorem c10_digits_in_range_witness :
    ((⟨2024, 1, 15, 23, 59, 0⟩ : DateTime).hour < 24 ∧
      (⟨2024, 1, 15, 23, 59, 0⟩ : DateTime).minute < 60) ∧
    (loop_step ⟨0, dst_start 0, dst_end 0⟩ ⟨2024, 1, 15, 23, 59, 0⟩).2.1 <
      num_digits 0 ∧
    (loop_step ⟨0, dst_start 0, dst_end 0⟩ ⟨2024, 1, 15, 23, 59, 0⟩).2.2.1 <
      num_digits 1 ∧
    (loop_step ⟨0, dst_start 0, dst_end 0⟩ ⟨2024, 1, 15, 23, 59, 0⟩).2.2.2 <
      num_digits 2 :=
  ⟨⟨by norm_num, by norm_num⟩,
    c10_digits_in_range ⟨0, dst_start 0, dst_end 0⟩ ⟨2024, 1, 15, 23, 59, 0⟩
      (by norm_num) (by norm_num)⟩

/-! ### Claim C5 -/

/-- C5: for the minute-tens wheel, `step_to_digit` moves to
`second_target = target + STEPS_PER_REV/2` exactly when the current position
is strictly greater than `target` and at most `second_target` (otherwise to
`target`), and for every current position and in-range digit the occurrence
selected this way is the one reachable with the fewest forward half-steps
among the two. -/
theorem c5_tens_second_target (rd : Nat → Bool) (w : Wheel) (digit : Nat)
    (hd : digit < 6) (_hw : w.pos < STEPS_PER_REV) :
    step_to_digit rd 1 w digit = step_to_position rd w (tens_chosen w digit) ∧
    (tens_chosen w digit =
        (digit_target 1 digit + STEPS_PER_REV / 2) % UINT_MOD ↔
      (digit_target 1 digit < w.pos ∧
        w.pos ≤ (digit_target 1 digit + STEPS_PER_REV / 2) % UINT_MOD)) ∧
    fwd_dist w.pos (tens_chosen w digit) ≤
      fwd_dist w.pos (digit_target 1 digit) ∧
    fwd_dist w.pos (tens_chosen w digit) ≤
      fwd_dist w.pos ((digit_target 1 digit + STEPS_PER_REV / 2) % UINT_MOD) := by
  have hne : digit_target 1 digit ≠
      (digit_target 1 digit + STEPS_PER_REV / 2) % UINT_MOD := by
    interval_cases digit <;> decide
  refine ⟨?_, ?_, ?_, ?_⟩
  · simp only [step_to_digit, tens_chosen, if_true]
    split_ifs <;> rfl
  · simp only [tens_chosen]
    split_ifs with hc
    · exact iff_of_true rfl hc
    · exact iff_of_false hne hc
  · simp only [tens_chosen, fwd_dist]
    interval_cases digit <;>
      simp only [digit_target, starting_offset, num_digits, starting_digits,
        num_flaps, STEPS_PER_REV, UINT_MOD] <;>
      norm_num <;> split_ifs <;> omega
  · simp only [tens_chosen, fwd_dist]
    interval_cases digit <;>
      simp only [digit_target, starting_offset, num_digits, starting_digits,
        num_flaps, STEPS_PER_REV, UINT_MOD] <;>
      norm_num <;> split_ifs <;> omega

/-- C5 witness: at position 2000 with digit 2 (`target = 762`,
`second_target = 2810`) the second occurrence is selected and is strictly
closer going forward. -/
theorem c5_tens_second_target_witness :
    ((2 : Nat) < 6 ∧ (⟨2000, 0⟩ : Wheel).pos < STEPS_PER_REV) ∧
    tens_chosen ⟨2000, 0⟩ 2 =
      (digit_target 1 2 + STEPS_PER_REV / 2) % UINT_MOD ∧
    step_to_digit tr_pr 1 ⟨2000, 0⟩ 2 =
      step_to_position tr_pr ⟨2000, 0⟩ (tens_chosen ⟨2000, 0⟩ 2) ∧
    fwd_dist (⟨2000, 0⟩ : Wheel).pos (tens_chosen ⟨2000, 0⟩ 2) ≤
      fwd_dist (⟨2000, 0⟩ : Wheel).pos (digit_target 1 2) := by
  have h := c5_tens_second_target tr_pr ⟨2000, 0⟩ 2 (by norm_num) (by norm_num)
  exact ⟨⟨by norm_num, by norm_num⟩, by decide, h.1, h.2.2.1⟩

/-! ### Claim C6 -/

/-- The DST start instant computed by `loop` falls on a Sunday of March in the
range day 8 to 14 — i.e. the second Sunday of March — at 02:00 (for the years
2000–2099 that RTClib's calendar arithmetic covers). -/
theorem dst_start_sunday (y : Nat) (h1 : 2000 ≤ y) (h2 : y ≤ 2099) :
    (dst_start y).month = 3 ∧ 8 ≤ (dst_start y).day ∧ (dst_start y).day ≤ 14 ∧
    dayOfTheWeek y 3 (dst_start y).day = 0 ∧ (dst_start y).hour = 2 := by
  have hwlt : dayOfTheWeek y 3 8 < 7 := Nat.mod_lt _ (by norm_num)
  have hklt : (7 - dayOfTheWeek y 3 8) % 7 ≤ 6 := by omega
  refine ⟨rfl, by simp only [dst_start]; omega, by simp only [dst_start]; omega,
    ?_, rfl⟩
  show dayOfTheWeek y 3 (8 + (7 - dayOfTheWeek y 3 8) % 7) = 0
  have hmod : ∀ a : Nat, a ≤ 40000 → a % 65536 = a :=
    fun a h => Nat.mod_eq_of_lt (by omega)
  have hlin : date2days y 3 (8 + (7 - dayOfTheWeek y 3 8) % 7) =
      date2days y 3 8 + (7 - dayOfTheWeek y 3 8) % 7 := by
    simp only [date2days, daysBeforeMonth, UINT_MOD, if_pos h1]
    norm_num
    rw [hmod, hmod]
    · omega
    · split_ifs <;> omega
    · split_ifs <;> omega
  show (date2days y 3 (8 + (7 - dayOfTheWeek y 3 8) % 7) + 6) % 7 = 0
  rw [hlin]
  have hd : dayOfTheWeek y 3 8 = (date2days y 3 8 + 6) % 7 := rfl
  omega

/-- The DST end instant computed by `loop` falls on a Sunday of November in
the range day 1 to 7 — i.e. the first Sunday of November — at 01:00 standard
time (for the years 2000–2099). -/
theorem dst_end_sunday (y : Nat) (h1 : 2000 ≤ y) (h2 : y ≤ 2099) :
    (dst_end y).month = 11 ∧ 1 ≤ (dst_end y).day ∧ (dst_end y).day ≤ 7 ∧
    dayOfTheWeek y 11 (dst_end y).day = 0 ∧ (dst_end y).hour = 1 := by
  have hwlt : dayOfTheWeek y 11 1 < 7 := Nat.mod_lt _ (by norm_num)
  have hklt : (7 - dayOfTheWeek y 11 1) % 7 ≤ 6 := by omega
  refine ⟨rfl, by simp only [dst_end]; omega, by simp only [dst_end]; omega,
    ?_, rfl⟩
  show dayOfTheWeek y 11 (1 + (7 - dayOfTheWeek y 11 1) % 7) = 0
  have hmod : ∀ a : Nat, a ≤ 40000 → a % 65536 = a :=
    fun a h => Nat.mod_eq_of_lt (by omega)
  have hlin : date2days y 11 (1 + (7 - dayOfTheWeek y 11 1) % 7) =
      date2days y 11 1 + (7 - dayOfTheWeek y 11 1) % 7 := by
    simp only [date2days, daysBeforeMonth, UINT_MOD, if_pos h1]
    norm_num
    rw [hmod, hmod]
    · omega
    · split_ifs <;> omega
    · split_ifs <;> omega
  show (date2days y 11 (1 + (7 - dayOfTheWeek y 11 1) % 7) + 6) % 7 = 0
  rw [hlin]
  have hd : dayOfTheWeek y 11 1 = (date2days y 11 1 + 6) % 7 := rfl
  omega

/-- C6: given a cutoff cache that is either stale (different year) or
consistent, one pass of `loop` recomputes the cutoffs for the reading's year
exactly when the year changed, and the displayed hour digit equals
`(hour mod 12 + 1) mod 12` if and only if the reading lies in the half-open
window from the DST start instant (the second Sunday of March, 02:00) to the
DST end instant (the first Sunday of November, 01:00 standard time) of its
own year; in particular 2024-03-10 01:59 leaves the hour digit unmodified,
2024-03-10 02:01 increments it modulo 12, and 2024-11-03 01:30 leaves it
unmodified. -/
theorem c6_dst_hour (st : DstCache) (now : DateTime)
    (hcache : st.year_old = now.year →
      st.dstS = dst_start now.year ∧ st.dstE = dst_end now.year)
    (hy1 : 2000 ≤ now.year) (hy2 : now.year ≤ 2099) :
    (loop_step st now).1 = ⟨now.year, dst_start now.year, dst_end now.year⟩ ∧
    (loop_step st now).2.1 = loop_hour now ∧
    (loop_hour now = (now.hour % 12 + 1) % 12 ↔
      (secondstime (dst_start now.year) ≤ secondstime now ∧
        secondstime now < secondstime (dst_end now.year))) ∧
    ((dst_start now.year).month = 3 ∧ 8 ≤ (dst_start now.year).day ∧
      (dst_start now.year).day ≤ 14 ∧
      dayOfTheWeek now.year 3 (dst_start now.year).day = 0 ∧
      (dst_start now.year).hour = 2) ∧
    ((dst_end now.year).month = 11 ∧ 1 ≤ (dst_end now.year).day ∧
      (dst_end now.year).day ≤ 7 ∧
      dayOfTheWeek now.year 11 (dst_end now.year).day = 0 ∧
      (dst_end now.year).hour = 1) ∧
    loop_hour ⟨2024, 3, 10, 1, 59, 0⟩ = 1 % 12 ∧
    loop_hour ⟨2024, 3, 10, 2, 1, 0⟩ = (2 % 12 + 1) % 12 ∧
    loop_hour ⟨2024, 11, 3, 1, 30, 0⟩ = 1 % 12 := by
  obtain ⟨yo, ds, de⟩ := st
  have hst : (loop_step ⟨yo, ds, de⟩ now).1 =
        ⟨now.year, dst_start now.year, dst_end now.year⟩ ∧
      (loop_step ⟨yo, ds, de⟩ now).2.1 = loop_hour now := by
    by_cases hne : now.year ≠ yo
    · constructor
      · simp only [loop_step, if_pos hne]
      · simp only [loop_step, loop_hour, if_pos hne]
    · push_neg at hne
      subst hne
      obtain ⟨hds, hde⟩ := hcache rfl
      subst hds
      subst hde
      constructor
      · simp only [loop_step, ite_self]
      · simp only [loop_step, loop_hour, ite_self]
  refine ⟨hst.1, hst.2, ?_, dst_start_sunday now.year hy1 hy2,
    dst_end_sunday now.year hy1 hy2, by decide, by decide, by decide⟩
  unfold loop_hour
  split_ifs with hc
  · exact iff_of_true rfl hc
  · refine iff_of_false (fun he => ?_) hc
    omega

/-- C6 witness: the statement applied to a consistent 2024 cache and the
reading 2024-03-10 02:01, which is incremented. -/
theorem c6_dst_hour_witness :
    ((⟨2024, dst_start 2024, dst_end 2024⟩ : DstCache).year_old =
        (⟨2024, 3, 10, 2, 1, 0⟩ : DateTime).year →
      (⟨2024, dst_start 2024, dst_end 2024⟩ : DstCache).dstS =
          dst_start (⟨2024, 3, 10, 2, 1, 0⟩ : DateTime).year ∧
        (⟨2024, dst_start 2024, dst_end 2024⟩ : DstCache).dstE =
          dst_end (⟨2024, 3, 10, 2, 1, 0⟩ : DateTime).year) ∧
    (loop_step ⟨2024, dst_start 2024, dst_end 2024⟩ ⟨2024, 3, 10, 2, 1, 0⟩).1 =
      ⟨2024, dst_start 2024, dst_end 2024⟩ ∧
    (loop_step ⟨2024, dst_start 2024, dst_end 2024⟩
        ⟨2024, 3, 10, 2, 1, 0⟩).2.1 = loop_hour ⟨2024, 3, 10, 2, 1, 0⟩ ∧
    loop_hour ⟨2024, 3, 10, 2, 1, 0⟩ = (2 % 12 + 1) % 12 := by
  have h := c6_dst_hour ⟨2024, dst_start 2024, dst_end 2024⟩
    ⟨2024, 3, 10, 2, 1, 0⟩ (fun _ => ⟨rfl, rfl⟩) (by norm_num) (by norm_num)
  exact ⟨fun _ => ⟨rfl, rfl⟩, h.1, h.2.1, h.2.2.2.2.2.2.1⟩

/-! ### Claim C8 -/

/-- Invariant induction for the shared-endstop clearing loop: entered with
`total = 200 * (21 - fuel)` (as `setup` does with `fuel = 21`, `total = 0`),
the loop (a) exits normally only with the shared line reading released and a
counted total of at most `STEPS_PER_REV`, (b) halts only with a counted total
exceeding `STEPS_PER_REV`, and (c) nudges the first wheel in 200-half-step
batches once per iteration and the second wheel in at most that many batches,
nudging at least once when the line initially reads pressed. -/
theorem clear_aux_props (rd : Nat → Bool) :
    ∀ (fuel i total : Nat) (w1 w2 : Wheel),
      total = 200 * (21 - fuel) → 1 ≤ fuel → fuel ≤ 21 →
      w1.pos < STEPS_PER_REV → w2.pos < STEPS_PER_REV →
      ((clear_aux rd fuel i total w1 w2).ok = true →
        (clear_aux rd fuel i total w1 w2).total ≤ STEPS_PER_REV ∧
        rd (clear_aux rd fuel i total w1 w2).idx = true) ∧
      ((clear_aux rd fuel i total w1 w2).ok = false →
        STEPS_PER_REV < (clear_aux rd fuel i total w1 w2).total) ∧
      (∃ n1 n2, n2 ≤ n1 ∧
        (clear_aux rd fuel i total w1 w2).total = total + 200 * n1 ∧
        (clear_aux rd fuel i total w1 w2).w1.pos =
          (w1.pos + 200 * n1) % STEPS_PER_REV ∧
        (clear_aux rd fuel i total w1 w2).w2.pos =
          (w2.pos + 200 * n2) % STEPS_PER_REV ∧
        (rd i = false → 1 ≤ n1))
  | 0, i, total, w1, w2 => fun _ hf _ _ _ => absurd hf (by norm_num)
  | fuel + 1, i, total, w1, w2 => fun htot _ hf21 hw1 hw2 => by
    have hw1' : w1.pos < 4096 := hw1
    have hw2' : w2.pos < 4096 := hw2
    by_cases hri : rd i = true
    · simp only [clear_aux, if_pos hri]
      refine ⟨fun _ => ⟨?_, hri⟩, fun h => absurd h (by decide), 0, 0, le_rfl,
        ?_, ?_, ?_, fun hf => absurd hri (by simp [hf])⟩
      · show total ≤ 4096
        omega
      · show total = total + 200 * 0
        omega
      · show w1.pos = (w1.pos + 200 * 0) % 4096
        omega
      · show w2.pos = (w2.pos + 200 * 0) % 4096
        omega
    · by_cases hguard : STEPS_PER_REV < total + 200
      · by_cases hmid : rd (i + 1) = true
        · simp only [clear_aux, if_neg hri, if_pos hmid, if_pos hguard]
          refine ⟨fun h => absurd h (by decide), fun _ => hguard, 1, 0,
            by omega, by omega, ?_, ?_, fun _ => le_rfl⟩
          · have hp : (step_num w1 200).pos = (w1.pos + 200) % 4096 :=
              step_num_pos w1 200
            show (step_num w1 200).pos = (w1.pos + 200 * 1) % 4096
            omega
          · show w2.pos = (w2.pos + 200 * 0) % 4096
            omega
        · simp only [clear_aux, if_neg hri, if_neg hmid, if_pos hguard]
          refine ⟨fun h => absurd h (by decide), fun _ => hguard, 1, 1,
            le_rfl, by omega, ?_, ?_, fun _ => le_rfl⟩
          · have hp : (step_num w1 200).pos = (w1.pos + 200) % 4096 :=
              step_num_pos w1 200
            show (step_num w1 200).pos = (w1.pos + 200 * 1) % 4096
            omega
          · have hp : (step_num w2 200).pos = (w2.pos + 200) % 4096 :=
              step_num_pos w2 200
            show (step_num w2 200).pos = (w2.pos + 200 * 1) % 4096
            omega
      · have hguard4 : ¬ (4096 < total + 200) := hguard
        have hfuel1 : 1 ≤ fuel := by omega
        have htot' : total + 200 = 200 * (21 - fuel) := by omega
        by_cases hmid : rd (i + 1) = true
        · have heq : clear_aux rd (fuel + 1) i total w1 w2 =
              clear_aux rd fuel (i + 2) (total + 200) (step_num w1 200) w2 := by
            simp only [clear_aux, if_neg hri, if_pos hmid, if_neg hguard]
          rw [heq]
          have hs1 : (step_num w1 200).pos = (w1.pos + 200) % 4096 :=
            step_num_pos w1 200
          obtain ⟨hok, hfail, n1', n2', hle, htotR, hp1, hp2, hn⟩ :=
            clear_aux_props rd fuel (i + 2) (total + 200) (step_num w1 200) w2
              htot' hfuel1 (by omega)
              (by rw [step_num_pos]; exact Nat.mod_lt _ (by norm_num)) hw2
          refine ⟨hok, hfail, n1' + 1, n2', by omega, by omega, ?_, ?_,
            fun _ => by omega⟩
          · have hp1' : (clear_aux rd fuel (i + 2) (total + 200)
                (step_num w1 200) w2).w1.pos =
                ((step_num w1 200).pos + 200 * n1') % 4096 := hp1
            show _ = (w1.pos + 200 * (n1' + 1)) % 4096
            omega
          · exact hp2
        · have heq : clear_aux rd (fuel + 1) i total w1 w2 =
              clear_aux rd fuel (i + 2) (total + 200) (step_num w1 200)
                (step_num w2 200) := by
            simp only [clear_aux, if_neg hri, if_neg hmid, if_neg hguard]
          rw [heq]
          have hs1 : (step_num w1 200).pos = (w1.pos + 200) % 4096 :=
            step_num_pos w1 200
          have hs2 : (step_num w2 200).pos = (w2.pos + 200) % 4096 :=
            step_num_pos w2 200
          obtain ⟨hok, hfail, n1', n2', hle, htotR, hp1, hp2, hn⟩ :=
            clear_aux_props rd fuel (i + 2) (total + 200) (step_num w1 200)
              (step_num w2 200) htot' hfuel1 (by omega)
              (by rw [step_num_pos]; exact Nat.mod_lt _ (by norm_num))
              (by rw [step_num_pos]; exact Nat.mod_lt _ (by norm_num))
          refine ⟨hok, hfail, n1' + 1, n2' + 1, by omega, by omega, ?_, ?_,
            fun _ => by omega⟩
          · have hp1' : (clear_aux rd fuel (i + 2) (total + 200)
                (step_num w1 200) (step_num w2 200)).w1.pos =
                ((step_num w1 200).pos + 200 * n1') % 4096 := hp1
            show _ = (w1.pos + 200 * (n1' + 1)) % 4096
            omega
          · have hp2' : (clear_aux rd fuel (i + 2) (total + 200)
                (step_num w1 200) (step_num w2 200)).w2.pos =
                ((step_num w2 200).pos + 200 * n2') % 4096 := hp2
            show _ = (w2.pos + 200 * (n2' + 1)) % 4096
            omega

/-- C8: the boot-time clearing routine runs because steppers 1 and 2 share an
endstop pin; while the shared line reads pressed it alternately nudges the
first wheel and then, if the line still reads pressed, the second wheel, in
fixed batches of 200 half-steps; it terminates as soon as the shared line
reads released, with its counted step total within `STEPS_PER_REV`; and if
the counted total exceeds `STEPS_PER_REV` before the line releases it invokes
the fatal halt — so the routine either finishes within `STEPS_PER_REV`
counted nudge-steps or halts. -/
theorem c8_shared_clearing (rd : Nat → Bool) (w1 w2 : Wheel)
    (hw1 : w1.pos < STEPS_PER_REV) (hw2 : w2.pos < STEPS_PER_REV) :
    clear_shared_endstop rd w1 w2 = clear_aux rd 21 0 0 w1 w2 ∧
    ((clear_aux rd 21 0 0 w1 w2).ok = true →
      (clear_aux rd 21 0 0 w1 w2).total ≤ STEPS_PER_REV ∧
      rd (clear_aux rd 21 0 0 w1 w2).idx = true) ∧
    ((clear_aux rd 21 0 0 w1 w2).ok = false →
      STEPS_PER_REV < (clear_aux rd 21 0 0 w1 w2).total) ∧
    (∃ n1 n2, n2 ≤ n1 ∧
      (clear_aux rd 21 0 0 w1 w2).total = 200 * n1 ∧
      (clear_aux rd 21 0 0 w1 w2).w1.pos =
        (w1.pos + 200 * n1) % STEPS_PER_REV ∧
      (clear_aux rd 21 0 0 w1 w2).w2.pos =
        (w2.pos + 200 * n2) % STEPS_PER_REV ∧
      (rd 0 = false → 1 ≤ n1)) ∧
    (rd 0 = true → clear_aux rd 21 0 0 w1 w2 = ⟨true, 0, 0, w1, w2⟩) := by
  obtain ⟨hok, hfail, n1, n2, hle, htot, hp1, hp2, hn⟩ :=
    clear_aux_props rd 21 0 0 w1 w2 (by norm_num) (by norm_num) (by norm_num)
      hw1 hw2
  refine ⟨?_, hok, hfail, ⟨n1, n2, hle, by omega, hp1, hp2, hn⟩, ?_⟩
  · simp only [clear_shared_endstop, endstop_pins]
    norm_num
  · intro h0
    show clear_aux rd (20 + 1) 0 0 w1 w2 = ⟨true, 0, 0, w1, w2⟩
    simp only [clear_aux, if_pos h0]

/-- C8 witness: with the shared line released from the start, the routine
exits immediately with zero counted nudges. -/
theorem c8_shared_clearing_witness :
    ((⟨500, 0⟩ : Wheel).pos < STEPS_PER_REV ∧
      (⟨600, 0⟩ : Wheel).pos < STEPS_PER_REV) ∧
    clear_shared_endstop (fun _ => true) ⟨500, 0⟩ ⟨600, 0⟩ =
      clear_aux (fun _ => true) 21 0 0 ⟨500, 0⟩ ⟨600, 0⟩ ∧
    clear_aux (fun _ => true) 21 0 0 ⟨500, 0⟩ ⟨600, 0⟩ =
      ⟨true, 0, 0, ⟨500, 0⟩, ⟨600, 0⟩⟩ ∧
    (clear_aux (fun _ => true) 21 0 0 ⟨500, 0⟩ ⟨600, 0⟩).total ≤
      STEPS_PER_REV := by
  have h := c8_shared_clearing (fun _ => true) ⟨500, 0⟩ ⟨600, 0⟩
    (by norm_num) (by norm_num)
  have hnoop := h.2.2.2.2 rfl
  exact ⟨⟨by norm_num, by norm_num⟩, h.1, hnoop, (h.2.1 (by rw [hnoop])).1⟩
